import Mathlib

/-!
# Verification of the RS 69 schedule-derivation and calendar-export engine

Shallow embedding of the core logic of the RS 69 routine application
(`src/App.tsx` / the application variant embedded in `vite.config.ts`):
the time parser (`timeToMinutes`, `parseTimeToDate`), the schedule resolver
(`getClassSchedule`, `getDiningSchedule`, `getCombinedSchedule`,
`loadScheduleForSection`) and the calendar serializer (`generateICS`).

Strings are modelled on their character lists (`List Char`); JavaScript
numbers that can be `NaN` are modelled as `Option Int` with `none = NaN`;
JavaScript `Date` values are modelled as milliseconds since the Unix epoch
(`Int`), with the system locale taken to be UTC (the code only tags the
IANA timezone name as metadata; it never converts instants).
-/

/-- JavaScript `str.split(sep)` for a single-character separator, on
character lists.  Always returns a non-empty list; `"".split(c) = [""]`. -/
def jsSplitChar (sep : Char) : List Char → List (List Char)
  | [] => [[]]
  | c :: rest =>
    let r := jsSplitChar sep rest
    if c = sep then [] :: r
    else (c :: r.headD []) :: r.tail

/-- JavaScript `str.trim()` on character lists: strip leading and trailing
whitespace. -/
def trimL (l : List Char) : List Char :=
  ((l.dropWhile Char.isWhitespace).reverse.dropWhile Char.isWhitespace).reverse

/-- The split `time.split(/([AP]M)/)` destructured as `[timePart, period]`:
scan for the first occurrence of `"AM"` or `"PM"`; return the prefix before
it and (when found) the marker's first character (`'A'` or `'P'`).
When no marker occurs, the whole input is the prefix and the period is
`none` (JavaScript: `period` is `undefined`). -/
def findAmPm : List Char → List Char × Option Char
  | [] => ([], none)
  | [c] => ([c], none)
  | c :: d :: rest =>
    if (c = 'A' ∨ c = 'P') ∧ d = 'M' then ([], some c)
    else
      let r := findAmPm (d :: rest)
      (c :: r.1, r.2)

/-- Value of a (most-significant-first) decimal digit string. -/
def digitsToNat (l : List Char) : Nat :=
  l.foldl (fun n c => 10 * n + (c.toNat - '0'.toNat)) 0

/-- JavaScript `Number(str)` on the string shapes reachable here (segments
of a `'.'`-split, hence never containing `'.'`): the trimmed empty string
is `0`, optionally signed decimal digit strings are their value, anything
else is `NaN` (`none`).  Hex/exponent/fractional forms cannot reach this
function in the embedded code. -/
def jsNumberL (l : List Char) : Option Int :=
  let t := trimL l
  if t = [] then some 0
  else if t.all Char.isDigit then some (Int.ofNat (digitsToNat t))
  else
    match t with
    | '+' :: rest =>
      if rest ≠ [] ∧ rest.all Char.isDigit then some (Int.ofNat (digitsToNat rest)) else none
    | '-' :: rest =>
      if rest ≠ [] ∧ rest.all Char.isDigit then some (-(Int.ofNat (digitsToNat rest))) else none
    | _ => none

/-- Body of `timeToMinutes` after `timeStr.split('-')[0]` has been taken:
```js
const [timePart, period] = time.split(/([AP]M)/);
const [hours, minutes] = timePart.split('.').map(Number);
let totalMinutes = (hours % 12) * 60 + (minutes || 0);
if (period === 'PM') totalMinutes += 12 * 60;
return totalMinutes;
```
JavaScript `%` is truncating remainder (`Int.tmod`); `minutes || 0` maps
both `undefined` and `NaN` (and `0`) to `0`. -/
def timeToMinutesCore (first : List Char) : Option Int :=
  let time := trimL first
  let fp := findAmPm time
  let parts := (jsSplitChar '.' fp.1).map jsNumberL
  let hours := parts.headD (some 0)
  let minutesOrZero : Int := ((parts.get? 1).getD none).getD 0
  let base := hours.map (fun h => (Int.tmod h 12) * 60 + minutesOrZero)
  if fp.2 = some 'P' then base.map (fun v => v + 720) else base

/-- `timeToMinutes` (App.tsx lines 59–68 / vite.config.ts lines 129–138):
minutes since midnight of the range's start endpoint; `none` models a
`NaN` result on malformed input. -/
def timeToMinutes (timeStr : String) : Option Int :=
  timeToMinutesCore ((jsSplitChar '-' timeStr.data).headD [])

/-- Throw-aware variant of `timeToMinutes`: the only operation in its body
that could throw a `TypeError` is `timeStr.split('-')[0].trim()` in case
`split` returned an empty array (then `[0]` is `undefined`).  The
`error` branch marks that spot; everything else in the body is total. -/
def timeToMinutesE (timeStr : String) : Except String (Option Int) :=
  match jsSplitChar '-' timeStr.data with
  | [] => Except.error "TypeError: cannot read properties of undefined"
  | first :: _ => Except.ok (timeToMinutesCore first)

/-! ## JavaScript `Date` model

A `Date` is its timestamp in milliseconds since the Unix epoch; the local
timezone is taken to be UTC (the code never converts instants; the IANA
timezone name is carried as metadata only).  An *invalid* date (`NaN`
timestamp) is `none`.  Civil-calendar conversions follow the proleptic
Gregorian calendar, as ECMAScript requires. -/

/-- Milliseconds in a day. -/
def msPerDay : Int := 86400000

/-- Gregorian civil date `(year, month, day)` of a day number (days since
1970-01-01). -/
def civilFromDays (z0 : Int) : Int × Int × Int :=
  let z := z0 + 719468
  let era := Int.fdiv z 146097
  let doe := z - era * 146097
  let yoe := (doe - doe / 1460 + doe / 36524 - doe / 146096) / 365
  let y := yoe + era * 400
  let doy := doe - (365 * yoe + yoe / 4 - yoe / 100)
  let mp := (5 * doy + 2) / 153
  let d := doy - (153 * mp + 2) / 5 + 1
  let m := mp + (if mp < 10 then 3 else -9)
  (y + (if m ≤ 2 then 1 else 0), m, d)

/-- Day number (days since 1970-01-01) of a Gregorian civil date.  The day
`d` may lie outside `1..last-day-of-month`; the result extrapolates
linearly, exactly matching ECMAScript's `setDate` normalization. -/
def daysFromCivil (y0 m d : Int) : Int :=
  let y := y0 - (if m ≤ 2 then 1 else 0)
  let era := Int.fdiv y 400
  let yoe := y - era * 400
  let doy := (153 * (m + (if m > 2 then -3 else 9)) + 2) / 5 + d - 1
  let doe := yoe * 365 + yoe / 4 - yoe / 100 + doy
  era * 146097 + doe - 719468

/-- `date.getDay()`: day of week, 0 = Sunday.  1970-01-01 was a Thursday. -/
def jsGetDay (t : Int) : Int :=
  Int.fmod (Int.fdiv t msPerDay + 4) 7

/-- `date.getDate()`: day of month. -/
def jsGetDate (t : Int) : Int :=
  (civilFromDays (Int.fdiv t msPerDay)).2.2

/-- `date.setDate(n)`: replace the day-of-month field by `n` (normalizing
out-of-range values into adjacent months), keeping the time of day. -/
def jsSetDate (t : Int) (n : Int) : Int :=
  let days := Int.fdiv t msPerDay
  let tod := t - days * msPerDay
  let c := civilFromDays days
  daysFromCivil c.1 c.2.1 n * msPerDay + tod

/-- `date.setHours(h, m, 0, 0)`: replace the time of day (hours ≥ 24
normalize into following days, as in ECMAScript). -/
def jsSetHours (t : Int) (h m : Int) : Int :=
  Int.fdiv t msPerDay * msPerDay + h * 3600000 + m * 60000

/-- Zero-pad the decimal representation of a non-negative integer to
(at least) `w` digits. -/
def padNum (w : Nat) (n : Int) : String :=
  let s := toString n
  if s.length < w then String.mk (List.replicate (w - s.length) '0') ++ s else s

/-- `formatICSDate` (vite.config.ts lines 168–170):
`date.toISOString().replace(/[-:]/g, '').split('.')[0] + 'Z'` —
the instant in compact UTC form `YYYYMMDDTHHMMSSZ`.  On an invalid date
`toISOString` throws a `RangeError`; that unreachable-for-this-app case is
modelled by a marker string. -/
def formatICSDate (d : Option Int) : String :=
  match d with
  | none => "RangeError: Invalid time value"
  | some ms =>
    let days := Int.fdiv ms msPerDay
    let tod := ms - days * msPerDay
    let c := civilFromDays days
    padNum 4 c.1 ++ padNum 2 c.2.1 ++ padNum 2 c.2.2 ++ "T" ++
      padNum 2 (tod / 3600000) ++ padNum 2 (tod / 60000 % 60) ++
      padNum 2 (tod / 1000 % 60) ++ "Z"

/-- The inner `parseTime` of `parseTimeToDate` (vite.config.ts lines
146–156): parse one endpoint and place it on the calendar day of `date`.
A non-numeric hour makes `setHours(NaN, …)` produce an invalid date
(`none`). -/
def parseTimePiece (time : List Char) (date : Int) : Option Int :=
  let t := trimL time
  let fp := findAmPm t
  let parts := (jsSplitChar '.' fp.1).map jsNumberL
  let hours := parts.headD (some 0)
  let minutesOrZero : Int := ((parts.get? 1).getD none).getD 0
  let hour : Option Int :=
    match hours, fp.2 with
    | some h, some 'P' => if h ≠ 12 then some (h + 12) else some h
    | some h, some 'A' => if h = 12 then some 0 else some h
    | some h, _ => some h
    | none, _ => none
  hour.map (fun h => jsSetHours date h minutesOrZero)

/-- `parseTimeToDate` (vite.config.ts lines 141–165): resolve both
endpoints of a range string onto the day `dayOffset` days after the Sunday
of the week containing `now` (the export-moment clock reading). -/
def parseTimeToDate (timeStr : String) (dayOffset : Nat) (now : Int) :
    Option Int × Option Int :=
  let pieces := jsSplitChar '-' timeStr.data
  let startTime := pieces.headD []
  let endTime := pieces.getD 1 []
  let startOfWeek := jsSetDate now (jsGetDate now - jsGetDay now)
  let eventDate := jsSetDate startOfWeek (jsGetDate startOfWeek + (dayOffset : Int))
  (parseTimePiece startTime eventDate, parseTimePiece endTime eventDate)

/-! ## Timetable data model (`classes.json` / `dining.json`, §3 of the design) -/

/-- One class assignment (all fields are integer indices into the dataset's
display-string tables).  The source field `section` is named `sectionIdx`
here because `section` is a Lean keyword. -/
structure Assignment where
  sectionIdx : Nat
  subject : Nat
  faculty : Nat
  room : Nat
  slot : Nat
deriving DecidableEq, Repr

/-- A class pattern: a set of day indices and a list of assignments. -/
structure ClassPattern where
  days : List Nat
  assignments : List Assignment
deriving DecidableEq, Repr

/-- The class timetable dataset. -/
structure ClassesData where
  days : List String
  slots : List String
  subjects : List String
  faculties : List String
  rooms : List String
  sections : List String
  patterns : List ClassPattern
deriving DecidableEq, Repr

/-- A dining pattern: a set of day indices and a list of slot indices into
`timeRanges`. -/
structure DiningPattern where
  days : List Nat
  slots : List Nat
deriving DecidableEq, Repr

/-- The dining timetable dataset. -/
structure DiningData where
  days : List String
  timeRanges : List String
  meals : List String
  patterns : List DiningPattern
deriving DecidableEq, Repr

/-- `ClassInfo` (the occupant built for a class cell).  The source field
`section` is named `sectionName` here (`section` is a Lean keyword). -/
structure ClassInfo where
  subject : String
  faculty : String
  room : String
  sectionName : String
deriving DecidableEq, Repr

/-- `MealInfo` (the occupant built for a meal cell). -/
structure MealInfo where
  meal : String
  timeRange : String
deriving DecidableEq, Repr

/-- A day-cell occupant: `ClassInfo | MealInfo` (the source discriminates
the union with `'subject' in item`). -/
inductive Item where
  | classItem (c : ClassInfo)
  | mealItem (m : MealInfo)
deriving DecidableEq, Repr

/-- `TimeSlot` (a row of the weekly grid): the time-range string acting as
row key, the `type` tag (the source stores the string `"class"` or
`"meal"`), and one optional occupant per weekday. -/
structure TimeSlot where
  time : String
  type : String
  sunday : Option Item := none
  monday : Option Item := none
  tuesday : Option Item := none
  wednesday : Option Item := none
  thursday : Option Item := none
  friday : Option Item := none
  saturday : Option Item := none
deriving DecidableEq, Repr

/-- JavaScript `str.toLowerCase()` (ASCII range; dataset section codes and
day names are ASCII). -/
def jsToLower (s : String) : String :=
  String.mk (s.data.map Char.toLower)

/-- The dynamic property write `slot[dayName] = item` guarded by
`dayName !== 'time' && dayName !== 'type'`: a name among the seven
weekday keys sets that day's occupant; any other name writes a property
that no later read ever consults, so it is a no-op on the model. -/
def setDayField (s : TimeSlot) (name : String) (item : Item) : TimeSlot :=
  if name = "sunday" then { s with sunday := some item }
  else if name = "monday" then { s with monday := some item }
  else if name = "tuesday" then { s with tuesday := some item }
  else if name = "wednesday" then { s with wednesday := some item }
  else if name = "thursday" then { s with thursday := some item }
  else if name = "friday" then { s with friday := some item }
  else if name = "saturday" then { s with saturday := some item }
  else s

/-- The dynamic property read `slot[dayName]` for the seven weekday keys
(`undefined`, i.e. `none`, for any other name). -/
def getDayField (s : TimeSlot) (name : String) : Option Item :=
  if name = "sunday" then s.sunday
  else if name = "monday" then s.monday
  else if name = "tuesday" then s.tuesday
  else if name = "wednesday" then s.wednesday
  else if name = "thursday" then s.thursday
  else if name = "friday" then s.friday
  else if name = "saturday" then s.saturday
  else none

/-- `pattern.days.forEach(dayIndex => { … slot[dayName] = item })`:
apply the occupant to every day of the pattern (day names are looked up in
the dataset's `days` table and lowercased). -/
def applyDays (days : List Nat) (dayNames : List String) (item : Item)
    (s : TimeSlot) : TimeSlot :=
  days.foldl (fun t d => setDayField t (jsToLower (dayNames.getD d "")) item) s

/-- The find-or-create-then-mutate idiom
```js
let existingSlot = slots.find(slot => slot.time === key);
if (!existingSlot) { existingSlot = { time: key, type: ty }; slots.push(existingSlot); }
…mutate existingSlot…
```
as a pure function: update the first row keyed `key`, or append a freshly
created one (updated) when none exists. -/
def upsert (key : String) (ty : String) (update : TimeSlot → TimeSlot) :
    List TimeSlot → List TimeSlot
  | [] => [update { time := key, type := ty }]
  | s :: rest =>
    if s.time = key then update s :: rest
    else s :: upsert key ty update rest

/-- The body of the inner `forEach` of `getClassSchedule` for one
assignment (vite.config.ts lines 286–319). -/
def applyAssignment (cd : ClassesData) (sectionIndex : Nat)
    (pattern : ClassPattern) (acc : List TimeSlot) (a : Assignment) :
    List TimeSlot :=
  if a.sectionIdx = sectionIndex then
    let timeSlot := cd.slots.getD a.slot ""
    let classInfo : ClassInfo :=
      { subject := cd.subjects.getD a.subject ""
        faculty := cd.faculties.getD a.faculty ""
        room := cd.rooms.getD a.room ""
        sectionName := cd.sections.getD a.sectionIdx "" }
    upsert timeSlot "class"
      (applyDays pattern.days cd.days (Item.classItem classInfo)) acc
  else acc

/-- `getClassSchedule` (vite.config.ts lines 282–323): rows for every
assignment of the given section, in pattern/assignment encounter order,
merged by time string. -/
def getClassSchedule (cd : ClassesData) (sectionIndex : Nat) : List TimeSlot :=
  cd.patterns.foldl
    (fun acc pattern => pattern.assignments.foldl (applyAssignment cd sectionIndex pattern) acc)
    []

/-- JavaScript `arr.indexOf(v)`: index of the first occurrence, `-1` when
absent. -/
def jsIndexOf (l : List Nat) (v : Nat) : Int :=
  match l.findIdx? (fun x => x = v) with
  | some i => Int.ofNat i
  | none => -1

/-- JavaScript `arr[i]` for a possibly out-of-range (or negative) index:
`undefined` is `none`. -/
def listGetJs (l : List String) (i : Int) : Option String :=
  if h : 0 ≤ i ∧ i.toNat < l.length then some (l.get ⟨i.toNat, h.2⟩) else none

/-- JavaScript `a || b` for the meal-name fallback
`diningData.meals[mealIndex] || diningData.meals[0]`: `undefined` and the
empty string are falsy.  A result that is still `undefined` is coerced to
`""` on storage into the (string-valued) model field. -/
def jsOrString (a b : Option String) : String :=
  match a with
  | some s => if s = "" then b.getD "" else s
  | none => b.getD ""

/-- The meal name chosen for one slot index of a dining pattern
(vite.config.ts lines 332–333): positional index of the slot value within
the pattern's own slot list, `meals[mealIndex] || meals[0]`. -/
def diningMealFor (dd : DiningData) (pattern : DiningPattern) (slotIndex : Nat) : String :=
  jsOrString (listGetJs dd.meals (jsIndexOf pattern.slots slotIndex)) (listGetJs dd.meals 0)

/-- The body of the inner `forEach` of `getDiningSchedule` for one slot
index (vite.config.ts lines 330–357). -/
def applyDiningSlot (dd : DiningData) (pattern : DiningPattern)
    (acc : List TimeSlot) (slotIndex : Nat) : List TimeSlot :=
  let timeRange := dd.timeRanges.getD slotIndex ""
  let mealInfo : MealInfo := { meal := diningMealFor dd pattern slotIndex, timeRange := timeRange }
  upsert timeRange "meal" (applyDays pattern.days dd.days (Item.mealItem mealInfo)) acc

/-- `getDiningSchedule` (vite.config.ts lines 326–361): meal rows for every
dining pattern (section-independent), merged by time-range string. -/
def getDiningSchedule (dd : DiningData) : List TimeSlot :=
  dd.patterns.foldl
    (fun acc pattern => pattern.slots.foldl (applyDiningSlot dd pattern) acc)
    []

/-- Comparison used by the sort
`(a, b) => timeToMinutes(a.time) - timeToMinutes(b.time)` on sort keys.
Both keys numeric: numeric order.  A `NaN` key makes the comparator return
`NaN`, which engines treat as "no swap" (ECMAScript leaves the order
implementation-defined for such inconsistent comparators); the model
treats those comparisons as ties. -/
def optLe (a b : Option Int) : Bool :=
  match a, b with
  | some x, some y => x ≤ y
  | _, _ => true

/-- Row comparison for the schedule sort. -/
def slotLe (a b : TimeSlot) : Bool :=
  optLe (timeToMinutes a.time) (timeToMinutes b.time)

/-- Insert into a sorted list, passing over every element that compares
`le` to the inserted one (so equal elements keep their original order). -/
def orderedInsertBy (le : TimeSlot → TimeSlot → Bool) (x : TimeSlot) :
    List TimeSlot → List TimeSlot
  | [] => [x]
  | y :: ys => if le x y then x :: y :: ys else y :: orderedInsertBy le x ys

/-- Stable sort.  ECMAScript 2019 requires `Array.prototype.sort` to be
stable; for a consistent comparator the stable sorted permutation is
unique, so any stable sort is a faithful model of the source's
`[...classSchedule, ...diningSchedule].sort(…)`. -/
def insertionSortBy (le : TimeSlot → TimeSlot → Bool) :
    List TimeSlot → List TimeSlot
  | [] => []
  | x :: xs => orderedInsertBy le x (insertionSortBy le xs)

/-- The sort applied to a row list. -/
def sortSlots (l : List TimeSlot) : List TimeSlot :=
  insertionSortBy slotLe l

/-- `getCombinedSchedule` (vite.config.ts lines 364–371): concatenate class
and dining rows, then sort ascending by the start-of-range minute value. -/
def getCombinedSchedule (cd : ClassesData) (dd : DiningData) (sectionIndex : Nat) :
    List TimeSlot :=
  sortSlots (getClassSchedule cd sectionIndex ++ getDiningSchedule dd)

/-- `trim` on strings. -/
def jsTrim (s : String) : String :=
  String.mk (trimL s.data)

/-- The test `/^\d+$/.test(s)`: non-empty and all ASCII digits. -/
def isDigitsOnly (s : String) : Bool :=
  !s.data.isEmpty && s.data.all Char.isDigit

/-- `str.padStart(2, '0')`. -/
def padStart2 (s : String) : String :=
  if s.length < 2 then String.mk (List.replicate (2 - s.length) '0') ++ s else s

/-- Section-identifier normalization (vite.config.ts lines 374–379): a bare
numeric string is zero-padded to two digits and prefixed with `'S'`. -/
def normalizeSection (s : String) : String :=
  let t := jsTrim s
  if isDigitsOnly t then "S" ++ padStart2 t else t

/-- `loadScheduleForSection` (vite.config.ts lines 373–394): normalize the
identifier, find its index in `sections` case-insensitively, and build the
combined schedule; `none` models the `return false` not-found path, on
which no schedule is produced. -/
def loadScheduleForSection (cd : ClassesData) (dd : DiningData) (s : String) :
    Option (List TimeSlot) :=
  match cd.sections.findIdx? (fun sec => jsToLower sec = jsToLower (normalizeSection s)) with
  | some i => some (getCombinedSchedule cd dd i)
  | none => none

/-! ## Calendar serializer (`generateICS`, vite.config.ts lines 173–252) -/

/-- The intermediate event record pushed into `events`.  `now` is the
export-moment clock reading: the source reads `new Date()` once and
`Date.now()` per event; both are modelled by the single parameter. -/
structure ICSEvent where
  uid : String
  summary : String
  description : String
  location : String
  dtstart : String
  dtend : String
  rrule : String
  timezone : String
deriving DecidableEq, Repr, Inhabited

/-- `slot.time.replace(/[^a-zA-Z0-9]/g, '')`. -/
def sanitizeUid (s : String) : String :=
  String.mk (s.data.filter Char.isAlphanum)

/-- `new Date('2024-09-06T23:59:59Z')` — the fixed semester end. -/
def semesterEndMs : Int :=
  daysFromCivil 2024 9 6 * msPerDay + 86399000

/-- The event record built for one occupied `(row, day)` cell
(vite.config.ts lines 184–218). -/
def mkEvent (slot : TimeSlot) (dayIndex : Nat) (item : Item) (now : Int)
    (tz : String) : ICSEvent :=
  let se := parseTimeToDate slot.time dayIndex now
  let tdl :=
    match item with
    | Item.classItem c =>
        (c.subject ++ " - Class",
         "Instructor: " ++ c.faculty ++ "\\nSection: " ++ c.sectionName,
         "Room " ++ c.room)
    | Item.mealItem m =>
        (m.meal, "Dining time: " ++ m.timeRange, "Tripty")
  { uid := toString dayIndex ++ "-" ++ sanitizeUid slot.time ++ "-" ++ toString now
        ++ "@rs-routine.local"
    summary := tdl.1
    description := tdl.2.1
    location := tdl.2.2
    dtstart := formatICSDate se.1
    dtend := formatICSDate se.2
    rrule := "FREQ=WEEKLY;UNTIL=" ++ formatICSDate (some semesterEndMs)
    timezone := tz }

/-- The fixed `dayNames` array of the serializer. -/
def icsDayNames : List String :=
  ["sunday", "monday", "tuesday", "wednesday", "thursday", "friday", "saturday"]

/-- The inner day loop of `generateICS` for one row: one event per present
occupant, days in fixed Sunday..Saturday order. -/
def slotEvents (slot : TimeSlot) (now : Int) (tz : String) : List ICSEvent :=
  (List.range 7).filterMap
    (fun dayIndex =>
      (getDayField slot (icsDayNames.getD dayIndex "")).map
        (fun item => mkEvent slot dayIndex item now tz))

/-- The full `events` array of `generateICS`. -/
def icsEvents (sched : List TimeSlot) (now : Int) (tz : String) : List ICSEvent :=
  sched.flatMap (fun slot => slotEvents slot now tz)

/-- The twelve lines pushed for one event (vite.config.ts lines 232–247). -/
def eventLines (now : Int) (e : ICSEvent) : List String :=
  ["BEGIN:VEVENT",
   "UID:" ++ e.uid,
   "DTSTART:" ++ e.dtstart,
   "DTEND:" ++ e.dtend,
   "RRULE:" ++ e.rrule,
   "SUMMARY:" ++ e.summary,
   "DESCRIPTION:" ++ e.description,
   "LOCATION:" ++ e.location,
   "DTSTAMP:" ++ formatICSDate (some now),
   "STATUS:CONFIRMED",
   "TRANSP:OPAQUE",
   "END:VEVENT"]

/-- The fixed calendar header block. -/
def icsHeaderLines : List String :=
  ["BEGIN:VCALENDAR",
   "VERSION:2.0",
   "PRODID:-//RS 69 Routine//Schedule Export//EN",
   "CALSCALE:GREGORIAN",
   "METHOD:PUBLISH"]

/-- The line list `icsContent` of `generateICS` just before joining. -/
def generateICSLines (sched : List TimeSlot) (now : Int) (tz : String) :
    List String :=
  icsHeaderLines ++ (icsEvents sched now tz).flatMap (eventLines now) ++ ["END:VCALENDAR"]

/-- `generateICS`: the exported document string, CRLF-joined. -/
def generateICS (sched : List TimeSlot) (now : Int) (tz : String) : String :=
  String.intercalate "\r\n" (generateICSLines sched now tz)

/-- The seven per-day occupant fields of a row, in Sunday..Saturday order. -/
def dayFields (s : TimeSlot) : List (Option Item) :=
  [s.sunday, s.monday, s.tuesday, s.wednesday, s.thursday, s.friday, s.saturday]

/-- Number of occupied day cells of one row. -/
def occupiedCellsOfSlot (s : TimeSlot) : Nat :=
  (dayFields s).countP (fun o => o.isSome)

/-- Number of occupied `(row, day)` cells of a weekly grid. -/
def occupiedCells (sched : List TimeSlot) : Nat :=
  (sched.map occupiedCellsOfSlot).sum

/-! ## Basic lemmas about the string primitives -/

theorem jsSplitChar_ne_nil (sep : Char) (l : List Char) : jsSplitChar sep l ≠ [] := by
  cases l with
  | nil => simp [jsSplitChar]
  | cons c rest =>
    simp only [jsSplitChar]
    split <;> simp

theorem timeToMinutes_eq_core (s : String) :
    ∃ first rest, jsSplitChar '-' s.data = first :: rest ∧
      timeToMinutes s = timeToMinutesCore first := by
  cases h : jsSplitChar '-' s.data with
  | nil => exact absurd h (jsSplitChar_ne_nil '-' s.data)
  | cons first rest =>
    exact ⟨first, rest, rfl, by simp [timeToMinutes, h]⟩

theorem perm_orderedInsertBy (le : TimeSlot → TimeSlot → Bool) (x : TimeSlot)
    (l : List TimeSlot) : (orderedInsertBy le x l).Perm (x :: l) := by
  induction l with
  | nil => simp [orderedInsertBy]
  | cons y ys ih =>
    simp only [orderedInsertBy]
    split
    · exact List.Perm.refl _
    · exact ((ih.cons y).trans (List.Perm.swap x y ys))

theorem perm_insertionSortBy (le : TimeSlot → TimeSlot → Bool)
    (l : List TimeSlot) : (insertionSortBy le l).Perm l := by
  induction l with
  | nil => simp [insertionSortBy]
  | cons x xs ih =>
    exact (perm_orderedInsertBy le x (insertionSortBy le xs)).trans (ih.cons x)

/-- C10.  `timeToMinutes` is total: the throw-aware model never reaches its
error branch and agrees with the total function on every input string; a
string with no `AM`/`PM` marker still yields a number, a non-numeric hour
yields `NaN` (`none`) rather than an exception; and sorting any row list —
malformed time strings included — completes, returning a permutation of
its input. -/
theorem timeToMinutes_total_and_sort_completes :
    (∀ s : String, timeToMinutesE s = Except.ok (timeToMinutes s)) ∧
    timeToMinutes "10.30-12.00" = some 630 ∧
    timeToMinutes "ab.30AM-12.00PM" = none ∧
    (∀ l : List TimeSlot, (sortSlots l).Perm l) := by
  refine ⟨fun s => ?_, by decide, by decide, fun l => perm_insertionSortBy slotLe l⟩
  obtain ⟨first, rest, h, h2⟩ := timeToMinutes_eq_core s
  rw [timeToMinutesE, h, h2]

/-- C4.  Section-identifier normalization: a bare numeric string is trimmed,
zero-padded to two digits and prefixed with `'S'` (`"1"` becomes `"S01"`),
and the lookup compares lowercased codes, so the identifiers `"1"`,
`"S01"` and `"s01"` produce identical resolver results on every dataset. -/
theorem normalizeSection_pads_and_lookup_case_insensitive :
    normalizeSection "1" = "S01" ∧
    (∀ s : String, isDigitsOnly (jsTrim s) = true →
        normalizeSection s = "S" ++ padStart2 (jsTrim s)) ∧
    (∀ cd dd, loadScheduleForSection cd dd "1" = loadScheduleForSection cd dd "S01" ∧
        loadScheduleForSection cd dd "S01" = loadScheduleForSection cd dd "s01") := by
  refine ⟨by decide, fun s h => ?_, fun cd dd => ⟨?_, ?_⟩⟩
  · simp [normalizeSection, h]
  · rfl
  · rfl

/-- C5.  A lookup key whose normalization matches no section code
(case-insensitively) makes the resolver return the not-found result
(`none`): no schedule, partial or otherwise, is produced. -/
theorem loadScheduleForSection_not_found (cd : ClassesData) (dd : DiningData)
    (key : String)
    (h : ∀ sec ∈ cd.sections, jsToLower sec ≠ jsToLower (normalizeSection key)) :
    loadScheduleForSection cd dd key = none := by
  rw [loadScheduleForSection]
  have hn : cd.sections.findIdx?
      (fun sec => decide (jsToLower sec = jsToLower (normalizeSection key))) = none := by
    rw [List.findIdx?_eq_none_iff]
    intro x hx
    simpa using h x hx
  rw [hn]

/-- A 53-section dataset (codes `S01` … `S53`) used to witness the
not-found path on the lookup `"S99"`. -/
def cdFiftyThree : ClassesData :=
  { days := ["Sunday", "Monday", "Tuesday", "Wednesday", "Thursday", "Friday", "Saturday"]
    slots := ["8.00AM-9.20AM"]
    subjects := ["CSE110"]
    faculties := ["Dr. X"]
    rooms := ["301"]
    sections := (List.range 53).map (fun i => "S" ++ padStart2 (toString (i + 1)))
    patterns := [{ days := [1], assignments := [⟨0, 0, 0, 0, 0⟩] }] }

/-- An empty dining dataset for the not-found witness. -/
def ddEmpty : DiningData :=
  { days := ["Sunday", "Monday", "Tuesday", "Wednesday", "Thursday", "Friday", "Saturday"]
    timeRanges := []
    meals := []
    patterns := [] }

/-- Witness for C5: `"S99"` against the 53-section dataset satisfies the
no-match hypothesis and resolves to the not-found result. -/
theorem loadScheduleForSection_not_found_witness :
    cdFiftyThree.sections.length = 53 ∧
    (∀ sec ∈ cdFiftyThree.sections,
        jsToLower sec ≠ jsToLower (normalizeSection "S99")) ∧
    loadScheduleForSection cdFiftyThree ddEmpty "S99" = none :=
  ⟨by decide, by decide,
    loadScheduleForSection_not_found cdFiftyThree ddEmpty "S99" (by decide)⟩

theorem dropWhile_id_of_false {p : Char → Bool} (l : List Char)
    (h : ∀ c ∈ l, p c = false) : l.dropWhile p = l := by
  cases l with
  | nil => rfl
  | cons c rest => simp [List.dropWhile_cons, h c (List.mem_cons_self c rest)]

theorem trimL_eq_self (l : List Char) (h : ∀ c ∈ l, c.isWhitespace = false) :
    trimL l = l := by
  unfold trimL
  rw [dropWhile_id_of_false l h,
    dropWhile_id_of_false l.reverse (fun c hc => h c (List.mem_reverse.mp hc)),
    List.reverse_reverse]

theorem jsSplitChar_of_not_mem (sep : Char) (l : List Char) (h : sep ∉ l) :
    jsSplitChar sep l = [l] := by
  induction l with
  | nil => rfl
  | cons c rest ih =>
    have hc : c ≠ sep := fun e => h (e ▸ List.mem_cons_self c rest)
    have hr : sep ∉ rest := fun e => h (List.mem_cons_of_mem c e)
    simp [jsSplitChar, hc, ih hr]

theorem jsSplitChar_append (sep : Char) (pre rest : List Char) (h : sep ∉ pre) :
    jsSplitChar sep (pre ++ sep :: rest) = pre :: jsSplitChar sep rest := by
  induction pre with
  | nil => simp [jsSplitChar]
  | cons c pre' ih =>
    have hc : c ≠ sep := fun e => h (e ▸ List.mem_cons_self c pre')
    have hr : sep ∉ pre' := fun e => h (List.mem_cons_of_mem c e)
    simp [jsSplitChar, hc, ih hr]

theorem findAmPm_cons_cons (c d : Char) (rest : List Char) :
    findAmPm (c :: d :: rest) =
      if (c = 'A' ∨ c = 'P') ∧ d = 'M' then ([], some c)
      else (c :: (findAmPm (d :: rest)).1, (findAmPm (d :: rest)).2) := by
  rfl

theorem findAmPm_marker (pre : List Char) (m : Char) (rest : List Char)
    (hm : m = 'A' ∨ m = 'P') (hpre : ∀ c ∈ pre, ¬(c = 'A' ∨ c = 'P')) :
    findAmPm (pre ++ m :: 'M' :: rest) = (pre, some m) := by
  induction pre with
  | nil => simp [findAmPm_cons_cons, hm]
  | cons c pre' ih =>
    have hc : ¬(c = 'A' ∨ c = 'P') := hpre c (List.mem_cons_self c pre')
    have hr : ∀ x ∈ pre', ¬(x = 'A' ∨ x = 'P') :=
      fun x hx => hpre x (List.mem_cons_of_mem c hx)
    cases pre' with
    | nil => simp [findAmPm_cons_cons, hc, hm]
    | cons c2 pre'' =>
      have ih2 := ih hr
      simp only [List.cons_append] at ih2
      simp [List.cons_append, findAmPm_cons_cons, hc, ih2]

theorem isWhitespace_false_of_isDigit (c : Char) (h : c.isDigit = true) :
    c.isWhitespace = false := by
  cases hw : c.isWhitespace
  · rfl
  · exfalso
    simp only [Char.isWhitespace, Bool.or_eq_true, decide_eq_true_eq] at hw
    rcases hw with ((h1 | h1) | h1) | h1 <;> (subst h1; simp [Char.isDigit] at h)

theorem ne_of_isDigit_of_not (c d : Char) (h : c.isDigit = true)
    (hd : d.isDigit = false) : c ≠ d := by
  intro e
  subst e
  rw [h] at hd
  exact Bool.noConfusion hd

theorem jsNumberL_of_digits (l : List Char) (h1 : l ≠ [])
    (h2 : ∀ c ∈ l, c.isDigit = true) :
    jsNumberL l = some (Int.ofNat (digitsToNat l)) := by
  have ht : trimL l = l :=
    trimL_eq_self l (fun c hc => isWhitespace_false_of_isDigit c (h2 c hc))
  have hall : l.all Char.isDigit = true := List.all_eq_true.mpr h2
  simp [jsNumberL, ht, h1, hall]

theorem isDigit_not_AP (c : Char) (h : c.isDigit = true) : ¬(c = 'A' ∨ c = 'P') := by
  rintro (e | e) <;> (subst e; exact absurd h (by decide))

theorem timeToMinutesCore_eval_min (hs ms : List Char) (mark : Char)
    (hmark : mark = 'A' ∨ mark = 'P')
    (h1 : hs ≠ []) (h2 : ∀ c ∈ hs, c.isDigit = true)
    (h3 : ms ≠ []) (h4 : ∀ c ∈ ms, c.isDigit = true) :
    timeToMinutesCore (hs ++ '.' :: ms ++ [mark, 'M']) =
      some (Int.ofNat (digitsToNat hs % 12) * 60 + Int.ofNat (digitsToNat ms)
        + if mark = 'P' then 720 else 0) := by
  have hws : ∀ c ∈ hs ++ '.' :: ms ++ [mark, 'M'], c.isWhitespace = false := by
    intro c hc
    simp at hc
    rcases hc with h | h | h | h | h
    · exact isWhitespace_false_of_isDigit c (h2 c h)
    · subst h; decide
    · exact isWhitespace_false_of_isDigit c (h4 c h)
    · subst h; rcases hmark with e | e <;> (subst e; decide)
    · subst h; decide
  have htrim : trimL (hs ++ '.' :: ms ++ [mark, 'M']) = hs ++ '.' :: ms ++ [mark, 'M'] :=
    trimL_eq_self _ hws
  have hap : ∀ c ∈ hs ++ '.' :: ms, ¬(c = 'A' ∨ c = 'P') := by
    intro c hc
    simp at hc
    rcases hc with h | h | h
    · exact isDigit_not_AP c (h2 c h)
    · subst h; decide
    · exact isDigit_not_AP c (h4 c h)
  have hfind : findAmPm (hs ++ '.' :: ms ++ [mark, 'M']) = (hs ++ '.' :: ms, some mark) := by
    have := findAmPm_marker (hs ++ '.' :: ms) mark [] hmark hap
    simpa [List.append_assoc] using this
  have hdotms : '.' ∉ ms := fun hm =>
    absurd rfl (ne_of_isDigit_of_not '.' '.' (h4 '.' hm) (by decide) )
  have hdoths : '.' ∉ hs := fun hm =>
    absurd rfl (ne_of_isDigit_of_not '.' '.' (h2 '.' hm) (by decide) )
  have hdot : jsSplitChar '.' (hs ++ '.' :: ms) = [hs, ms] := by
    rw [jsSplitChar_append '.' hs ms hdoths, jsSplitChar_of_not_mem '.' ms hdotms]
  have hnum1 : jsNumberL hs = some (Int.ofNat (digitsToNat hs)) :=
    jsNumberL_of_digits hs h1 h2
  have hnum2 : jsNumberL ms = some (Int.ofNat (digitsToNat ms)) :=
    jsNumberL_of_digits ms h3 h4
  have htmod : Int.tmod (Int.ofNat (digitsToNat hs)) 12
      = Int.ofNat (digitsToNat hs % 12) := rfl
  simp only [timeToMinutesCore, htrim, hfind, hdot, List.map_cons, List.map_nil,
    hnum1, hnum2, List.headD_cons, List.get?, Option.getD_some, htmod]
  have htm : ∀ a : Nat, Int.tmod (a : Int) 12 = ((a % 12 : Nat) : Int) := fun a => rfl
  rcases hmark with e | e <;> subst e <;> simp [htm, Int.natCast_mod]

theorem timeToMinutesCore_eval_nomin (hs : List Char) (mark : Char)
    (hmark : mark = 'A' ∨ mark = 'P')
    (h1 : hs ≠ []) (h2 : ∀ c ∈ hs, c.isDigit = true) :
    timeToMinutesCore (hs ++ [mark, 'M']) =
      some (Int.ofNat (digitsToNat hs % 12) * 60 + if mark = 'P' then 720 else 0) := by
  have hws : ∀ c ∈ hs ++ [mark, 'M'], c.isWhitespace = false := by
    intro c hc
    simp at hc
    rcases hc with h | h | h
    · exact isWhitespace_false_of_isDigit c (h2 c h)
    · subst h; rcases hmark with e | e <;> (subst e; decide)
    · subst h; decide
  have htrim : trimL (hs ++ [mark, 'M']) = hs ++ [mark, 'M'] := trimL_eq_self _ hws
  have hap : ∀ c ∈ hs, ¬(c = 'A' ∨ c = 'P') := fun c hc => isDigit_not_AP c (h2 c hc)
  have hfind : findAmPm (hs ++ [mark, 'M']) = (hs, some mark) :=
    findAmPm_marker hs mark [] hmark hap
  have hdoths : '.' ∉ hs := fun hm =>
    absurd rfl (ne_of_isDigit_of_not '.' '.' (h2 '.' hm) (by decide) )
  have hdot : jsSplitChar '.' hs = [hs] := jsSplitChar_of_not_mem '.' hs hdoths
  have hnum1 : jsNumberL hs = some (Int.ofNat (digitsToNat hs)) :=
    jsNumberL_of_digits hs h1 h2
  have htm : ∀ a : Nat, Int.tmod (a : Int) 12 = ((a % 12 : Nat) : Int) := fun a => rfl
  simp only [timeToMinutesCore, htrim, hfind, hdot, List.map_cons, List.map_nil,
    hnum1, List.headD_cons, List.get?, Option.getD_none, Option.getD_some]
  rcases hmark with e | e <;> subst e <;> simp [htm, Int.natCast_mod]

theorem timeToMinutes_mk_append (start rest : List Char) (h : '-' ∉ start) :
    timeToMinutes (String.mk (start ++ '-' :: rest)) = timeToMinutesCore start := by
  rw [timeToMinutes]
  have hd : (String.mk (start ++ '-' :: rest)).data = start ++ '-' :: rest := rfl
  rw [hd, jsSplitChar_append '-' start rest h, List.headD_cons]

/-- C7.  On a well-formed range string `"H.MM[AM|PM]-…"` — hour and minute
given as decimal digit strings, the minute part optional (second conjunct)
and defaulting to `0` — `timeToMinutes` returns the start endpoint's
minutes since midnight: `(hour mod 12) * 60 + minute`, plus `720` exactly
when the start period is `PM`.  `AM` with hour 12 gives hour value
`12 mod 12 = 0`, i.e. midnight. -/
theorem timeToMinutes_well_formed :
    (∀ (hs ms rest : List Char) (p : Bool),
        hs ≠ [] → (∀ c ∈ hs, c.isDigit = true) →
        ms ≠ [] → (∀ c ∈ ms, c.isDigit = true) →
        timeToMinutes (String.mk (hs ++ '.' :: ms ++
            (if p then ['P', 'M'] else ['A', 'M']) ++ '-' :: rest)) =
          some ((digitsToNat hs % 12 : Nat) * 60 + (digitsToNat ms : Nat)
            + if p then 720 else 0)) ∧
    (∀ (hs rest : List Char) (p : Bool),
        hs ≠ [] → (∀ c ∈ hs, c.isDigit = true) →
        timeToMinutes (String.mk (hs ++
            (if p then ['P', 'M'] else ['A', 'M']) ++ '-' :: rest)) =
          some ((digitsToNat hs % 12 : Nat) * 60 + if p then 720 else 0)) := by
  have hmin : ∀ (hs ms rest : List Char) (mark : Char),
      mark = 'A' ∨ mark = 'P' →
      hs ≠ [] → (∀ c ∈ hs, c.isDigit = true) →
      ms ≠ [] → (∀ c ∈ ms, c.isDigit = true) →
      timeToMinutes (String.mk (hs ++ '.' :: ms ++ [mark, 'M'] ++ '-' :: rest)) =
        some (Int.ofNat (digitsToNat hs % 12) * 60 + Int.ofNat (digitsToNat ms)
          + if mark = 'P' then 720 else 0) := by
    intro hs ms rest mark hmark h1 h2 h3 h4
    have hnmk : '-' ∉ [mark, 'M'] := by
      rcases hmark with e | e <;> subst e <;> decide
    have hnodash : '-' ∉ hs ++ '.' :: ms ++ [mark, 'M'] := by
      intro hm
      rcases List.mem_append.mp hm with h | h
      · rcases List.mem_append.mp h with h | h
        · exact absurd (h2 '-' h) (by decide)
        rcases List.mem_cons.mp h with h | h
        · exact absurd h (by decide)
        · exact absurd (h4 '-' h) (by decide)
      · exact hnmk h
    have hassoc : hs ++ '.' :: ms ++ [mark, 'M'] ++ '-' :: rest
        = (hs ++ '.' :: ms ++ [mark, 'M']) ++ '-' :: rest := by
      simp [List.append_assoc]
    rw [hassoc, timeToMinutes_mk_append _ rest hnodash,
      timeToMinutesCore_eval_min hs ms mark hmark h1 h2 h3 h4]
  have hnom : ∀ (hs rest : List Char) (mark : Char),
      mark = 'A' ∨ mark = 'P' →
      hs ≠ [] → (∀ c ∈ hs, c.isDigit = true) →
      timeToMinutes (String.mk (hs ++ [mark, 'M'] ++ '-' :: rest)) =
        some (Int.ofNat (digitsToNat hs % 12) * 60 + if mark = 'P' then 720 else 0) := by
    intro hs rest mark hmark h1 h2
    have hnmk : '-' ∉ [mark, 'M'] := by
      rcases hmark with e | e <;> subst e <;> decide
    have hnodash : '-' ∉ hs ++ [mark, 'M'] := by
      intro hm
      rcases List.mem_append.mp hm with h | h
      · exact absurd (h2 '-' h) (by decide)
      · exact hnmk h
    have hassoc : hs ++ [mark, 'M'] ++ '-' :: rest
        = (hs ++ [mark, 'M']) ++ '-' :: rest := by
      simp [List.append_assoc]
    rw [hassoc, timeToMinutes_mk_append _ rest hnodash,
      timeToMinutesCore_eval_nomin hs mark hmark h1 h2]
  constructor
  · intro hs ms rest p h1 h2 h3 h4
    cases p
    · simpa using hmin hs ms rest 'A' (Or.inl rfl) h1 h2 h3 h4
    · simpa using hmin hs ms rest 'P' (Or.inr rfl) h1 h2 h3 h4
  · intro hs rest p h1 h2
    cases p
    · simpa using hnom hs rest 'A' (Or.inl rfl) h1 h2
    · simpa using hnom hs rest 'P' (Or.inr rfl) h1 h2

/-- Witness for C7: `"12.30PM-2.00PM"` is `750` minutes
(`(12 mod 12) * 60 + 30 + 720`), and `"12.00AM-1.00AM"` (midnight) is `0`. -/
theorem timeToMinutes_well_formed_witness :
    (['1', '2'] : List Char) ≠ [] ∧ (∀ c ∈ (['1', '2'] : List Char), c.isDigit = true) ∧
    (['3', '0'] : List Char) ≠ [] ∧ (∀ c ∈ (['3', '0'] : List Char), c.isDigit = true) ∧
    timeToMinutes "12.30PM-2.00PM" = some 750 ∧
    timeToMinutes "12.00AM-1.00AM" = some 0 :=
  ⟨by decide, by decide, by decide, by decide,
    by
      have h := timeToMinutes_well_formed.1 ['1', '2'] ['3', '0']
        ['2', '.', '0', '0', 'P', 'M'] true (by decide) (by decide) (by decide) (by decide)
      simpa using h,
    by
      have h := timeToMinutes_well_formed.1 ['1', '2'] ['0', '0']
        ['1', '.', '0', '0', 'A', 'M'] false (by decide) (by decide) (by decide) (by decide)
      simpa using h⟩

/-! ## Row-key uniqueness (C3) -/

theorem setDayField_time (s : TimeSlot) (name : String) (item : Item) :
    (setDayField s name item).time = s.time := by
  unfold setDayField
  split_ifs <;> rfl

theorem applyDays_time (days : List Nat) (names : List String) (item : Item) :
    ∀ s : TimeSlot, (applyDays days names item s).time = s.time := by
  induction days with
  | nil => intro s; rfl
  | cons d rest ih =>
    intro s
    simp only [applyDays, List.foldl_cons] at *
    rw [ih, setDayField_time]

theorem map_time_upsert (key ty : String) (u : TimeSlot → TimeSlot)
    (hu : ∀ s, (u s).time = s.time) :
    ∀ l : List TimeSlot,
      (upsert key ty u l).map (fun s => s.time) =
        if key ∈ l.map (fun s => s.time) then l.map (fun s => s.time)
        else l.map (fun s => s.time) ++ [key] := by
  intro l
  induction l with
  | nil => simp [upsert, hu]
  | cons s rest ih =>
    by_cases hk : s.time = key
    · simp [upsert, hk, hu]
    · have hne : key ≠ s.time := fun e => hk e.symm
      simp only [upsert, if_neg hk, List.map_cons]
      rw [ih]
      by_cases hm : key ∈ rest.map (fun s => s.time)
      · simp [hm, hne]
      · simp [hm, hne]

theorem nodup_time_upsert (key ty : String) (u : TimeSlot → TimeSlot)
    (hu : ∀ s, (u s).time = s.time) (l : List TimeSlot)
    (h : (l.map (fun s => s.time)).Nodup) :
    ((upsert key ty u l).map (fun s => s.time)).Nodup := by
  rw [map_time_upsert key ty u hu l]
  by_cases hm : key ∈ l.map (fun s => s.time)
  · simpa [hm] using h
  · simp [hm, List.nodup_append, h]

theorem foldl_invariant {α : Type} (P : List TimeSlot → Prop)
    (step : List TimeSlot → α → List TimeSlot)
    (hstep : ∀ acc x, P acc → P (step acc x)) :
    ∀ (l : List α) (acc : List TimeSlot), P acc → P (l.foldl step acc) := by
  intro l
  induction l with
  | nil => intro acc h; exact h
  | cons x rest ih => intro acc h; exact ih (step acc x) (hstep acc x h)

theorem nodup_time_getClassSchedule (cd : ClassesData) (i : Nat) :
    ((getClassSchedule cd i).map (fun s => s.time)).Nodup := by
  unfold getClassSchedule
  refine foldl_invariant (fun l => (l.map (fun s => s.time)).Nodup) _ ?_ cd.patterns [] (by simp)
  intro acc pattern hacc
  refine foldl_invariant (fun l => (l.map (fun s => s.time)).Nodup) _ ?_ pattern.assignments acc hacc
  intro acc2 a hacc2
  unfold applyAssignment
  split
  · exact nodup_time_upsert _ _ _ (applyDays_time _ _ _) acc2 hacc2
  · exact hacc2

theorem nodup_time_getDiningSchedule (dd : DiningData) :
    ((getDiningSchedule dd).map (fun s => s.time)).Nodup := by
  unfold getDiningSchedule
  refine foldl_invariant (fun l => (l.map (fun s => s.time)).Nodup) _ ?_ dd.patterns [] (by simp)
  intro acc pattern hacc
  refine foldl_invariant (fun l => (l.map (fun s => s.time)).Nodup) _ ?_ pattern.slots acc hacc
  intro acc2 si hacc2
  unfold applyDiningSlot
  exact nodup_time_upsert _ _ _ (applyDays_time _ _ _) acc2 hacc2

/-- C3 (amended).  Row keys are unique *within* each builder: no two
class-derived rows share a `time` value and no two dining-derived rows
share a `time` value.  (Across the two, nothing deduplicates — see the
counterexample.) -/
theorem nodup_time_within_each_kind :
    (∀ (cd : ClassesData) (i : Nat),
        ((getClassSchedule cd i).map (fun s => s.time)).Nodup) ∧
    (∀ dd : DiningData, ((getDiningSchedule dd).map (fun s => s.time)).Nodup) :=
  ⟨nodup_time_getClassSchedule, nodup_time_getDiningSchedule⟩

/-- A dataset whose single class slot reuses the dining time range
`"9.00AM-10.20AM"`. -/
def cdShared : ClassesData :=
  { days := ["Sunday", "Monday", "Tuesday", "Wednesday", "Thursday", "Friday", "Saturday"]
    slots := ["9.00AM-10.20AM"]
    subjects := ["CSE110"]
    faculties := ["Dr. X"]
    rooms := ["301"]
    sections := ["S01"]
    patterns := [{ days := [1], assignments := [⟨0, 0, 0, 0, 0⟩] }] }

/-- A dining dataset whose only time range equals the class slot above. -/
def ddShared : DiningData :=
  { days := ["Sunday", "Monday", "Tuesday", "Wednesday", "Thursday", "Friday", "Saturday"]
    timeRanges := ["9.00AM-10.20AM"]
    meals := ["Lunch"]
    patterns := [{ days := [0], slots := [0] }] }

/-- Counterexample for C3 as stated: the identifier `"S01"` resolves on
`cdShared`/`ddShared`, yet the returned grid carries a class-derived row
and a dining-derived row with the *same* `time` value — uniqueness does
not hold across the whole combined grid. -/
theorem combined_grid_duplicate_time :
    (loadScheduleForSection cdShared ddShared "S01").isSome = true ∧
    ((loadScheduleForSection cdShared ddShared "S01").getD []).map (fun s => s.time)
      = ["9.00AM-10.20AM", "9.00AM-10.20AM"] ∧
    ¬ (((loadScheduleForSection cdShared ddShared "S01").getD []).map
        (fun s => s.time)).Nodup := by
  refine ⟨by decide, by decide, by decide⟩

/-! ## Meal-name selection (C9) -/

/-- C9 (amended).  The meal name attached for a slot index is the meals
entry at the first position of that slot value within the pattern's own
slot list, *provided that entry exists and is non-empty*; when the
position is out of range — or the entry is the empty string, which
JavaScript `||` also treats as falsy — the first meal name
(`meals[0]`, coerced to `""` when itself absent) is used instead. -/
theorem diningMealFor_positional_with_fallback (dd : DiningData)
    (p : DiningPattern) (i : Nat) :
    (∀ m : String, listGetJs dd.meals (jsIndexOf p.slots i) = some m → m ≠ "" →
        diningMealFor dd p i = m) ∧
    (listGetJs dd.meals (jsIndexOf p.slots i) = none →
        diningMealFor dd p i = (listGetJs dd.meals 0).getD "") ∧
    (∀ m : String, listGetJs dd.meals (jsIndexOf p.slots i) = some m → m = "" →
        diningMealFor dd p i = (listGetJs dd.meals 0).getD "") := by
  refine ⟨fun m hm hne => ?_, fun hnone => ?_, fun m hm he => ?_⟩
  · simp [diningMealFor, jsOrString, hm, hne]
  · simp [diningMealFor, jsOrString, hnone]
  · simp [diningMealFor, jsOrString, hm, he]

/-- The dining pattern used for the C9 counterexample: two slot indices,
the second pointing at an empty-string meals entry. -/
def dpFallback : DiningPattern :=
  { days := [0], slots := [0, 1] }

/-- Dining dataset whose `meals[1]` entry is the empty string. -/
def ddFallback : DiningData :=
  { days := ["Sunday", "Monday", "Tuesday", "Wednesday", "Thursday", "Friday", "Saturday"]
    timeRanges := ["8.00AM-9.00AM", "2.00PM-3.00PM"]
    meals := ["Breakfast", ""]
    patterns := [dpFallback] }

/-- Counterexample for C9 as stated: slot index `1` of `dpFallback` has a
corresponding meals entry (`meals[1] = ""`), yet the occupant built for it
carries the *first* meal name `"Breakfast"` — JavaScript `||` treats the
empty string as falsy, so the fallback also fires on present-but-empty
entries, not only on missing ones. -/
theorem diningMealFor_empty_string_fallback :
    listGetJs ddFallback.meals (jsIndexOf dpFallback.slots 1) = some "" ∧
    (getDiningSchedule ddFallback).find? (fun s => s.time == "2.00PM-3.00PM")
      = some { time := "2.00PM-3.00PM", type := "meal",
               sunday := some (Item.mealItem ⟨"Breakfast", "2.00PM-3.00PM"⟩) } ∧
    ("Breakfast" : String) ≠ "" := by
  refine ⟨by decide, by decide, by decide⟩

/-- Witness for C9 (amended): slot index `0` of `dpFallback` has the
non-empty entry `"Breakfast"` at its position, which is the meal chosen. -/
theorem diningMealFor_positional_witness :
    listGetJs ddFallback.meals (jsIndexOf dpFallback.slots 0) = some "Breakfast" ∧
    ("Breakfast" : String) ≠ "" ∧
    diningMealFor ddFallback dpFallback 0 = "Breakfast" :=
  ⟨by decide, by decide,
    (diningMealFor_positional_with_fallback ddFallback dpFallback 0).1 "Breakfast"
      (by decide) (by decide)⟩

/-! ## Serializer counting (C1) and the recurrence rule (C6) -/

theorem prefixed_line_ne (p s t : String) (c : Char)
    (h1 : (p ++ s).data.head? = some c) (h2 : t.data.head? ≠ some c) :
    p ++ s ≠ t :=
  fun e => h2 (e ▸ h1)

theorem eventLines_count_begin (now : Int) (e : ICSEvent) :
    (eventLines now e).count "BEGIN:VEVENT" = 1 := by
  have b1 : (("UID:" ++ e.uid) == "BEGIN:VEVENT") = false :=
    beq_eq_false_iff_ne.mpr (prefixed_line_ne _ _ _ 'U' rfl (by decide))
  have b2 : (("DTSTART:" ++ e.dtstart) == "BEGIN:VEVENT") = false :=
    beq_eq_false_iff_ne.mpr (prefixed_line_ne _ _ _ 'D' rfl (by decide))
  have b3 : (("DTEND:" ++ e.dtend) == "BEGIN:VEVENT") = false :=
    beq_eq_false_iff_ne.mpr (prefixed_line_ne _ _ _ 'D' rfl (by decide))
  have b4 : (("RRULE:" ++ e.rrule) == "BEGIN:VEVENT") = false :=
    beq_eq_false_iff_ne.mpr (prefixed_line_ne _ _ _ 'R' rfl (by decide))
  have b5 : (("SUMMARY:" ++ e.summary) == "BEGIN:VEVENT") = false :=
    beq_eq_false_iff_ne.mpr (prefixed_line_ne _ _ _ 'S' rfl (by decide))
  have b6 : (("DESCRIPTION:" ++ e.description) == "BEGIN:VEVENT") = false :=
    beq_eq_false_iff_ne.mpr (prefixed_line_ne _ _ _ 'D' rfl (by decide))
  have b7 : (("LOCATION:" ++ e.location) == "BEGIN:VEVENT") = false :=
    beq_eq_false_iff_ne.mpr (prefixed_line_ne _ _ _ 'L' rfl (by decide))
  have b8 : (("DTSTAMP:" ++ formatICSDate (some now)) == "BEGIN:VEVENT") = false :=
    beq_eq_false_iff_ne.mpr (prefixed_line_ne _ _ _ 'D' rfl (by decide))
  simp [eventLines, List.count_cons, b1, b2, b3, b4, b5, b6, b7, b8]

theorem count_begin_flatMap (now : Int) (evs : List ICSEvent) :
    ((evs.flatMap (eventLines now)).count "BEGIN:VEVENT") = evs.length := by
  induction evs with
  | nil => rfl
  | cons e rest ih =>
    rw [List.flatMap_cons, List.count_append, eventLines_count_begin, ih,
      List.length_cons]
    omega

theorem length_filterMap_isSome {α β : Type} (g : α → Option Item)
    (f : α → Item → β) (l : List α) :
    (l.filterMap (fun i => (g i).map (f i))).length
      = l.countP (fun i => (g i).isSome) := by
  induction l with
  | nil => rfl
  | cons x rest ih =>
    cases hx : g x <;>
      simp [List.filterMap_cons, List.countP_cons, hx, ih]

theorem slotEvents_length (slot : TimeSlot) (now : Int) (tz : String) :
    (slotEvents slot now tz).length = occupiedCellsOfSlot slot := by
  rw [slotEvents,
    length_filterMap_isSome (fun dayIndex => getDayField slot (icsDayNames.getD dayIndex ""))
      (fun dayIndex item => mkEvent slot dayIndex item now tz) (List.range 7)]
  show List.countP _ [0, 1, 2, 3, 4, 5, 6] = _
  simp [List.countP_cons, getDayField, icsDayNames, occupiedCellsOfSlot, dayFields]

theorem icsEvents_length (sched : List TimeSlot) (now : Int) (tz : String) :
    (icsEvents sched now tz).length = occupiedCells sched := by
  rw [icsEvents, List.length_flatMap, occupiedCells]
  congr 1
  exact List.map_congr_left (fun slot _ => slotEvents_length slot now tz)

/-- C1.  For every weekly grid (and any export-moment clock reading and
timezone), the serialized document carries exactly one event block — one
`BEGIN:VEVENT` line — per occupied `(row, day)` cell of the grid. -/
theorem generateICS_one_event_per_occupied_cell
    (sched : List TimeSlot) (now : Int) (tz : String) :
    (generateICSLines sched now tz).count "BEGIN:VEVENT" = occupiedCells sched := by
  rw [generateICSLines, List.count_append, List.count_append,
    count_begin_flatMap, icsEvents_length]
  have h1 : icsHeaderLines.count "BEGIN:VEVENT" = 0 := by decide
  have h2 : (["END:VCALENDAR"] : List String).count "BEGIN:VEVENT" = 0 := by decide
  omega

/-- The fixed semester-end bound serializes to the constant until-date. -/
theorem formatICSDate_semesterEnd :
    formatICSDate (some semesterEndMs) = "20240906T235959Z" := by
  decide

theorem eventLines_count_rrule (now : Int) (e : ICSEvent)
    (he : e.rrule = "FREQ=WEEKLY;UNTIL=20240906T235959Z") :
    (eventLines now e).count "RRULE:FREQ=WEEKLY;UNTIL=20240906T235959Z" = 1 := by
  have b1 : (("UID:" ++ e.uid) == "RRULE:FREQ=WEEKLY;UNTIL=20240906T235959Z") = false :=
    beq_eq_false_iff_ne.mpr (prefixed_line_ne _ _ _ 'U' rfl (by decide))
  have b2 : (("DTSTART:" ++ e.dtstart) == "RRULE:FREQ=WEEKLY;UNTIL=20240906T235959Z") = false :=
    beq_eq_false_iff_ne.mpr (prefixed_line_ne _ _ _ 'D' rfl (by decide))
  have b3 : (("DTEND:" ++ e.dtend) == "RRULE:FREQ=WEEKLY;UNTIL=20240906T235959Z") = false :=
    beq_eq_false_iff_ne.mpr (prefixed_line_ne _ _ _ 'D' rfl (by decide))
  have b5 : (("SUMMARY:" ++ e.summary) == "RRULE:FREQ=WEEKLY;UNTIL=20240906T235959Z") = false :=
    beq_eq_false_iff_ne.mpr (prefixed_line_ne _ _ _ 'S' rfl (by decide))
  have b6 : (("DESCRIPTION:" ++ e.description)
      == "RRULE:FREQ=WEEKLY;UNTIL=20240906T235959Z") = false :=
    beq_eq_false_iff_ne.mpr (prefixed_line_ne _ _ _ 'D' rfl (by decide))
  have b7 : (("LOCATION:" ++ e.location) == "RRULE:FREQ=WEEKLY;UNTIL=20240906T235959Z") = false :=
    beq_eq_false_iff_ne.mpr (prefixed_line_ne _ _ _ 'L' rfl (by decide))
  have b8 : (("DTSTAMP:" ++ formatICSDate (some now))
      == "RRULE:FREQ=WEEKLY;UNTIL=20240906T235959Z") = false :=
    beq_eq_false_iff_ne.mpr (prefixed_line_ne _ _ _ 'D' rfl (by decide))
  have b4 : (("RRULE:" ++ e.rrule) == "RRULE:FREQ=WEEKLY;UNTIL=20240906T235959Z") = true := by
    rw [he]
    decide
  simp [eventLines, List.count_cons, b1, b2, b3, b4, b5, b6, b7, b8]

theorem count_rrule_flatMap (now : Int) (evs : List ICSEvent)
    (h : ∀ e ∈ evs, e.rrule = "FREQ=WEEKLY;UNTIL=20240906T235959Z") :
    ((evs.flatMap (eventLines now)).count "RRULE:FREQ=WEEKLY;UNTIL=20240906T235959Z")
      = evs.length := by
  induction evs with
  | nil => rfl
  | cons e rest ih =>
    rw [List.flatMap_cons, List.count_append,
      eventLines_count_rrule now e (h e (List.mem_cons_self e rest)),
      ih (fun x hx => h x (List.mem_cons_of_mem e hx)), List.length_cons]
    omega

/-- C6.  Every emitted event carries the weekly recurrence rule bounded by
the fixed until-date `20240906T235959Z` (the semester end,
`2024-09-06T23:59:59Z`): the bound is an explicit date, not an occurrence
count, and — since the statement holds for *every* clock reading `now` —
not a date computed from the export moment.  Each occupied cell's event
block contains exactly one such `RRULE:` line. -/
theorem events_carry_fixed_until (sched : List TimeSlot) (now : Int) (tz : String) :
    (∀ e ∈ icsEvents sched now tz, e.rrule = "FREQ=WEEKLY;UNTIL=20240906T235959Z") ∧
    (generateICSLines sched now tz).count "RRULE:FREQ=WEEKLY;UNTIL=20240906T235959Z"
      = occupiedCells sched := by
  have ha : ∀ e ∈ icsEvents sched now tz,
      e.rrule = "FREQ=WEEKLY;UNTIL=20240906T235959Z" := by
    intro e he
    rw [icsEvents] at he
    rcases List.mem_flatMap.mp he with ⟨slot, _, hmem⟩
    rw [slotEvents] at hmem
    rcases List.mem_filterMap.mp hmem with ⟨dayIndex, _, hf⟩
    rcases Option.map_eq_some'.mp hf with ⟨item, _, heq⟩
    rw [← heq]
    show "FREQ=WEEKLY;UNTIL=" ++ formatICSDate (some semesterEndMs)
      = "FREQ=WEEKLY;UNTIL=20240906T235959Z"
    rw [formatICSDate_semesterEnd]
    decide
  refine ⟨ha, ?_⟩
  rw [generateICSLines, List.count_append, List.count_append,
    count_rrule_flatMap now _ ha, icsEvents_length]
  have h1 : icsHeaderLines.count "RRULE:FREQ=WEEKLY;UNTIL=20240906T235959Z" = 0 := by decide
  have h2 : (["END:VCALENDAR"] : List String).count
      "RRULE:FREQ=WEEKLY;UNTIL=20240906T235959Z" = 0 := by decide
  omega

/-- Witness row and grid: one occupied cell (a Monday class). -/
def slotW : TimeSlot :=
  { time := "8.00AM-9.20AM", type := "class",
    monday := some (Item.classItem ⟨"CSE110", "Dr. X", "301", "S01"⟩) }

/-- Witness grid with exactly one occupied cell. -/
def schedW : List TimeSlot := [slotW]

set_option maxRecDepth 10000

/-- Witness for C6: the single event of `schedW` carries the fixed
until-date rule, and its document holds exactly one such `RRULE:` line. -/
theorem events_carry_fixed_until_witness :
    ((icsEvents schedW 0 "UTC").headD default) ∈ icsEvents schedW 0 "UTC" ∧
    ((icsEvents schedW 0 "UTC").headD default).rrule
      = "FREQ=WEEKLY;UNTIL=20240906T235959Z" ∧
    (generateICSLines schedW 0 "UTC").count "RRULE:FREQ=WEEKLY;UNTIL=20240906T235959Z"
      = occupiedCells schedW :=
  ⟨by decide, (events_carry_fixed_until schedW 0 "UTC").1 _ (by decide),
    (events_carry_fixed_until schedW 0 "UTC").2⟩

/-! ## Determinism (C8) -/

/-- Counterexample for C8 as stated: serializing the *same* grid at two
different export-moment clock readings (`now = 0` and `now = 1000`,
milliseconds apart) yields *different* document strings — the `UID:`,
`DTSTAMP:`, `DTSTART:` and `DTEND:` lines embed the clock reading. -/
theorem generateICS_differs_across_clock_readings :
    generateICS schedW 0 "UTC" ≠ generateICS schedW 1000 "UTC" := by
  decide

/-- C8 (amended).  Resolution is deterministic — a pure function of the
dataset and section index — and serialization is deterministic once the
export-moment clock reading is fixed; the event-block *structure* (the
number of `BEGIN:VEVENT` blocks) is clock-independent, but the document
strings produced at different instants may differ (see the
counterexample), because uids, timestamps and event dates embed the
clock. -/
theorem resolve_deterministic_serialize_clock_fixed
    (cd : ClassesData) (dd : DiningData) (i : Nat) (s : List TimeSlot)
    (n₁ n₂ : Int) (tz : String) (h : n₁ = n₂) :
    getCombinedSchedule cd dd i = getCombinedSchedule cd dd i ∧
    generateICS s n₁ tz = generateICS s n₂ tz ∧
    (∀ m₁ m₂ : Int, (generateICSLines s m₁ tz).count "BEGIN:VEVENT"
      = (generateICSLines s m₂ tz).count "BEGIN:VEVENT") := by
  subst h
  refine ⟨rfl, rfl, fun m₁ m₂ => ?_⟩
  have hc : ∀ m : Int, (generateICSLines s m tz).count "BEGIN:VEVENT"
      = occupiedCells s := by
    intro m
    rw [generateICSLines, List.count_append, List.count_append,
      count_begin_flatMap, icsEvents_length]
    have h1 : icsHeaderLines.count "BEGIN:VEVENT" = 0 := by decide
    have h2 : (["END:VCALENDAR"] : List String).count "BEGIN:VEVENT" = 0 := by decide
    omega
  rw [hc m₁, hc m₂]

/-- Witness for C8 (amended), at a concrete grid and equal clock readings. -/
theorem resolve_deterministic_witness :
    (0 : Int) = 0 ∧
    (getCombinedSchedule cdShared ddShared 0 = getCombinedSchedule cdShared ddShared 0 ∧
      generateICS schedW 0 "UTC" = generateICS schedW 0 "UTC" ∧
      (∀ m₁ m₂ : Int, (generateICSLines schedW m₁ "UTC").count "BEGIN:VEVENT"
        = (generateICSLines schedW m₂ "UTC").count "BEGIN:VEVENT")) :=
  ⟨rfl, resolve_deterministic_serialize_clock_fixed cdShared ddShared 0 schedW 0 0 "UTC" rfl⟩

/-! ## Sort correctness and stability (C2) -/

theorem slotLe_total (a b : TimeSlot) : slotLe a b = true ∨ slotLe b a = true := by
  unfold slotLe optLe
  cases timeToMinutes a.time with
  | none => left; rfl
  | some x =>
    cases timeToMinutes b.time with
    | none => right; rfl
    | some y =>
      simp only [decide_eq_true_eq]
      omega

theorem slotLe_trans_of_valid (a b c : TimeSlot)
    (ha : (timeToMinutes a.time).isSome = true)
    (hb : (timeToMinutes b.time).isSome = true)
    (hc : (timeToMinutes c.time).isSome = true)
    (h1 : slotLe a b = true) (h2 : slotLe b c = true) : slotLe a c = true := by
  unfold slotLe optLe at *
  cases hta : timeToMinutes a.time with
  | none => simp [hta] at ha
  | some x =>
    cases htb : timeToMinutes b.time with
    | none => simp [htb] at hb
    | some y =>
      cases htc : timeToMinutes c.time with
      | none => simp [htc] at hc
      | some z =>
        rw [hta, htb] at h1
        rw [htb, htc] at h2
        simp only [decide_eq_true_eq] at *
        omega

theorem mem_orderedInsertBy (le : TimeSlot → TimeSlot → Bool) (x z : TimeSlot)
    (l : List TimeSlot) (h : z ∈ orderedInsertBy le x l) : z = x ∨ z ∈ l := by
  have := (perm_orderedInsertBy le x l).mem_iff.mp h
  simpa [List.mem_cons] using this

theorem pairwise_orderedInsertBy (x : TimeSlot) (l : List TimeSlot)
    (hx : (timeToMinutes x.time).isSome = true)
    (hl : ∀ y ∈ l, (timeToMinutes y.time).isSome = true)
    (hp : l.Pairwise (fun a b => slotLe a b = true)) :
    (orderedInsertBy slotLe x l).Pairwise (fun a b => slotLe a b = true) := by
  induction l with
  | nil => simp [orderedInsertBy]
  | cons y ys ih =>
    rw [orderedInsertBy]
    rcases List.pairwise_cons.mp hp with ⟨hyz, hys⟩
    have hy : (timeToMinutes y.time).isSome = true := hl y (List.mem_cons_self y ys)
    have hysval : ∀ z ∈ ys, (timeToMinutes z.time).isSome = true :=
      fun z hz => hl z (List.mem_cons_of_mem y hz)
    by_cases hle : slotLe x y = true
    · rw [if_pos hle]
      refine List.pairwise_cons.mpr ⟨?_, hp⟩
      intro z hz
      rcases List.mem_cons.mp hz with he | hz2
      · rw [he]; exact hle
      · exact slotLe_trans_of_valid x y z hx hy (hysval z hz2) hle (hyz z hz2)
    · rw [if_neg hle]
      refine List.pairwise_cons.mpr ⟨?_, ih hysval hys⟩
      intro z hz
      rcases mem_orderedInsertBy slotLe x z ys hz with he | hz2
      · rw [he]
        rcases slotLe_total x y with h | h
        · exact absurd h hle
        · exact h
      · exact hyz z hz2

theorem pairwise_insertionSortBy (l : List TimeSlot)
    (hl : ∀ y ∈ l, (timeToMinutes y.time).isSome = true) :
    (insertionSortBy slotLe l).Pairwise (fun a b => slotLe a b = true) := by
  induction l with
  | nil => simp [insertionSortBy]
  | cons x xs ih =>
    rw [insertionSortBy]
    have hxs : ∀ y ∈ xs, (timeToMinutes y.time).isSome = true :=
      fun y hy => hl y (List.mem_cons_of_mem x hy)
    refine pairwise_orderedInsertBy x (insertionSortBy slotLe xs)
      (hl x (List.mem_cons_self x xs)) ?_ (ih hxs)
    intro y hy
    exact hxs y ((perm_insertionSortBy slotLe xs).mem_iff.mp hy)

theorem filter_orderedInsertBy (k : Int) (x : TimeSlot) (l : List TimeSlot) :
    (orderedInsertBy slotLe x l).filter (fun s => timeToMinutes s.time == some k)
      = if (timeToMinutes x.time == some k) = true
        then x :: l.filter (fun s => timeToMinutes s.time == some k)
        else l.filter (fun s => timeToMinutes s.time == some k) := by
  induction l with
  | nil =>
    rw [orderedInsertBy]
    by_cases hx : (timeToMinutes x.time == some k) = true <;>
      simp [List.filter_cons, hx]
  | cons y ys ih =>
    rw [orderedInsertBy]
    by_cases hle : slotLe x y = true
    · rw [if_pos hle]
      by_cases hx : (timeToMinutes x.time == some k) = true <;>
        simp [List.filter_cons, hx]
    · rw [if_neg hle]
      by_cases hy : (timeToMinutes y.time == some k) = true
      · by_cases hx : (timeToMinutes x.time == some k) = true
        · exfalso
          apply hle
          unfold slotLe optLe
          rw [beq_iff_eq] at hx hy
          rw [hx, hy]
          simp
        · simp [List.filter_cons, hy, hx, ih]
      · by_cases hx : (timeToMinutes x.time == some k) = true <;>
          simp [List.filter_cons, hy, hx, ih]

theorem filter_insertionSortBy (k : Int) (l : List TimeSlot) :
    (insertionSortBy slotLe l).filter (fun s => timeToMinutes s.time == some k)
      = l.filter (fun s => timeToMinutes s.time == some k) := by
  induction l with
  | nil => rfl
  | cons x xs ih =>
    rw [insertionSortBy, filter_orderedInsertBy, ih]
    by_cases hx : (timeToMinutes x.time == some k) = true <;>
      simp [List.filter_cons, hx]

/-- C2.  On a combined schedule all of whose rows have numeric sort keys
(the spec's trusted-dataset precondition; a `NaN` key would make the
comparator inconsistent and the engine's order implementation-defined),
the resolver's output is sorted: every pair of rows in output order
compares `≤` on start-of-range minutes — equivalently, a row with a
strictly smaller start minute appears strictly earlier.  Ties are stable:
for every key value, the rows carrying it appear in exactly the original
concatenation order (all class rows in encounter order, then all dining
rows in encounter order). -/
theorem combined_schedule_sorted_and_stable
    (cd : ClassesData) (dd : DiningData) (i : Nat)
    (hval : ∀ s ∈ getClassSchedule cd i ++ getDiningSchedule dd,
        (timeToMinutes s.time).isSome = true) :
    (getCombinedSchedule cd dd i).Pairwise
      (fun a b => optLe (timeToMinutes a.time) (timeToMinutes b.time) = true) ∧
    (∀ k : Int,
      (getCombinedSchedule cd dd i).filter (fun s => timeToMinutes s.time == some k)
        = (getClassSchedule cd i ++ getDiningSchedule dd).filter
            (fun s => timeToMinutes s.time == some k)) :=
  ⟨pairwise_insertionSortBy (getClassSchedule cd i ++ getDiningSchedule dd) hval,
    fun k => filter_insertionSortBy k (getClassSchedule cd i ++ getDiningSchedule dd)⟩

/-- Witness for C2: on `cdShared`/`ddShared` every row key is numeric, and
the sorted/stable conclusions hold at section index 0. -/
theorem combined_schedule_sorted_witness :
    (∀ s ∈ getClassSchedule cdShared 0 ++ getDiningSchedule ddShared,
        (timeToMinutes s.time).isSome = true) ∧
    ((getCombinedSchedule cdShared ddShared 0).Pairwise
        (fun a b => optLe (timeToMinutes a.time) (timeToMinutes b.time) = true) ∧
      (∀ k : Int,
        (getCombinedSchedule cdShared ddShared 0).filter
            (fun s => timeToMinutes s.time == some k)
          = (getClassSchedule cdShared 0 ++ getDiningSchedule ddShared).filter
              (fun s => timeToMinutes s.time == some k))) :=
  ⟨by decide, combined_schedule_sorted_and_stable cdShared ddShared 0 (by decide)⟩

/-- Witness for C4: the bare numeric identifier `"7"` satisfies the digit
test and normalizes to `"S"` plus its two-digit zero-padding. -/
theorem normalizeSection_pads_witness :
    isDigitsOnly (jsTrim "7") = true ∧
    normalizeSection "7" = "S" ++ padStart2 (jsTrim "7") :=
  ⟨by decide, normalizeSection_pads_and_lookup_case_insensitive.2.1 "7" (by decide)⟩
